import Mathlib

/-!
Verification of the task/process core of the osdev-arm kernel.

The definitions below are a shallow embedding of the C sources:
* the scheduler and kernel-task code (`sched_*`, `task_*`),
* the bounded mailbox (`k_mailbox_*`),
* the spinlock (`spin_*`),
* the process lifecycle (`process_*`: create, copy, destroy, wait).

Machine integers are modelled as `Int` (with explicit 32-bit wrapping where
overflow matters) or as `Nat` bit patterns for bitwise option words.
Statements and proofs about the claims of the specification follow the
definitions.
-/

namespace Osdev

/-! ## Errno constants (newlib values used by the toolchain) -/

def ECHILD : Int := 10
def EAGAIN : Int := 11
def ENOMEM : Int := 12
def EINVAL : Int := 22
def ETIMEDOUT : Int := 116

/-! ## Scheduler model

Shallow embedding of the scheduler core.  Tasks are identified by a
`TaskId`; the kernel state carries the task records, the per-priority run
queues (`sched_queue[]`), the current CPU's running task and ISR nesting
level.  A context switch into the scheduler (`sched_yield`) is recorded by
incrementing the `yields` counter: the claims only need to observe that the
CPU gave up control.  Wait queues are explicit lists of task ids, passed in
and out of the functions that mutate them in C.
-/

abbrev TaskId := Nat

inductive TaskState where
  | suspended
  | ready
  | running
  | sleeping
  | destroyed
  | noneState
deriving DecidableEq, Repr

structure Task where
  priority : Int
  state : TaskState
  resched : Bool
  sleep_result : Int
deriving Repr

structure Sched where
  tasks : TaskId → Task
  runqueue : Int → List TaskId
  curTask : Option TaskId
  isrNesting : Int
  yields : Nat

/-- Update a single task record in the scheduler state. -/
def updTask (sigma : Sched) (t : TaskId) (f : Task → Task) : Sched :=
  { sigma with tasks := fun i => if i = t then f (sigma.tasks i) else sigma.tasks i }

/-- Compare task priorities: returns a number greater than zero iff `t1`
has a higher priority (smaller priority value) than `t2`. -/
def task_priority_cmp (t1 t2 : Task) : Int :=
  t2.priority - t1.priority

/-- Add the task to the run queue with the corresponding priority and mark
it ready. -/
def sched_enqueue (sigma : Sched) (t : TaskId) : Sched :=
  let sigma1 := updTask sigma t (fun tk => { tk with state := .ready })
  { sigma1 with
    runqueue := fun p =>
      if p = (sigma1.tasks t).priority then sigma1.runqueue p ++ [t]
      else sigma1.runqueue p }

/-- Switch from the current task context back to the scheduler loop.  The
model records only that the switch happened. -/
def sched_yield (sigma : Sched) : Sched :=
  { sigma with yields := sigma.yields + 1 }

/-- Check whether a reschedule is required given a task most recently added
to the run queue.  If the running task has a strictly lower priority than
the candidate: either yield at once, or, when nested in an ISR, set the
reschedule-pending flag on the running task. -/
def sched_may_yield (sigma : Sched) (cand : TaskId) : Sched :=
  match sigma.curTask with
  | none => sigma
  | some my =>
    if task_priority_cmp (sigma.tasks cand) (sigma.tasks my) > 0 then
      if sigma.isrNesting > 0 then
        updTask sigma my (fun tk => { tk with resched := true })
      else
        sched_yield (sched_enqueue sigma my)
    else sigma

/-- Wake up every task on the wait queue: record the result, unlink,
enqueue, possibly yield.  The C loop pops the head of the shared list until
it is empty, so the resulting wait queue is `[]`. -/
def sched_wakeup_all (sigma : Sched) (queue : List TaskId) (r : Int) : Sched :=
  match queue with
  | [] => sigma
  | t :: rest =>
    let sigma1 := updTask sigma t (fun tk => { tk with sleep_result := r })
    let sigma2 := sched_enqueue sigma1 t
    let sigma3 := sched_may_yield sigma2 t
    sched_wakeup_all sigma3 rest r

/-- The scan of `sched_wakeup_one`: walk the wait queue keeping the current
best sleeper (the C code keeps a `highest` pointer; the model keeps the
position in the original list alongside so that the later `list_remove` can
be expressed as an erase at that position). -/
def wakeup_scan (sigma : Sched) : List TaskId → Option (Nat × TaskId) → Nat → Option (Nat × TaskId)
  | [], best, _ => best
  | t :: rest, best, i =>
    match best with
    | none => wakeup_scan sigma rest (some (i, t)) (i + 1)
    | some (j, h) =>
      if task_priority_cmp (sigma.tasks t) (sigma.tasks h) > 0 then
        wakeup_scan sigma rest (some (i, t)) (i + 1)
      else
        wakeup_scan sigma rest (some (j, h)) (i + 1)

/-- Wake up the task with the highest priority from the wait queue, if any:
unlink it, record the result, enqueue, possibly yield.  Returns the updated
scheduler state together with the remaining wait queue. -/
def sched_wakeup_one (sigma : Sched) (queue : List TaskId) (r : Int) : Sched × List TaskId :=
  match wakeup_scan sigma queue none 0 with
  | none => (sigma, queue)
  | some (j, t) =>
    let sigma1 := updTask sigma t (fun tk => { tk with sleep_result := r })
    let sigma2 := sched_enqueue sigma1 t
    let sigma3 := sched_may_yield sigma2 t
    (sigma3, queue.eraseIdx j)

/-! ## Sleep model

`sched_sleep` suspends the calling task until a waker resumes it, so its
embedding is split at the `sched_yield` context switch: everything the
function does before the switch (take the scheduler lock, release the
caller's lock, mark the task sleeping, link it onto the wait queue, yield)
and everything it does after being resumed (release the scheduler lock,
reacquire the caller's lock, return the recorded `sleep_result`).  The
claims use the zero-timeout path, so no timer is armed.  The caller's
spinlock is modelled by the `callerLock` flag. -/

structure SleepSession where
  sched : Sched
  queue : List TaskId
  callerLock : Bool

/-- First half of `sched_sleep` (timeout 0, lock supplied): scheduler lock
taken, caller's lock released, state set to sleeping, task appended to the
wait queue, then the context switch into the scheduler. -/
def sched_sleep_before_yield (s : SleepSession) (t : TaskId) : SleepSession :=
  { sched := sched_yield (updTask s.sched t (fun tk => { tk with state := .sleeping })),
    queue := s.queue ++ [t],
    callerLock := false }

/-- Second half of `sched_sleep` (timeout 0, lock supplied), run after the
task is resumed: scheduler lock dropped, caller's lock reacquired, and the
recorded `sleep_result` returned. -/
def sched_sleep_after_yield (s : SleepSession) (t : TaskId) : Int × SleepSession :=
  ((s.sched.tasks t).sleep_result, { s with callerLock := true })

/-- A `sched_wakeup_all` on the session's wait queue (performed by another
task, with the scheduler lock held). -/
def wakeup_all_session (s : SleepSession) (r : Int) : SleepSession :=
  { s with sched := sched_wakeup_all s.sched s.queue r, queue := [] }

/-! ## Mailbox model

Embedding of the bounded mailbox.  The ring buffer is a byte store indexed
by offset from `buf_start`; `buf_len` is `buf_end - buf_start`.  Messages
are lists of bytes of length `msg_size`.  The wait queues for senders and
receivers live in the mailbox, and the wakeups go through the scheduler
model above. -/

structure KMailBox where
  buf : Nat → Nat
  buf_len : Nat
  read_off : Nat
  write_off : Nat
  msg_size : Nat
  capacity : Nat
  size : Nat
  receivers : List TaskId
  senders : List TaskId

/-- Copy `n` bytes of `msg` into the byte store at offset `off`
(the `memmove` into the ring buffer). -/
def bufWrite (buf : Nat → Nat) (off n : Nat) (msg : List Nat) : Nat → Nat :=
  fun i => if off ≤ i ∧ i < off + n then msg.getD (i - off) 0 else buf i

/-- Read `n` bytes out of the byte store at offset `off`
(the `memmove` out of the ring buffer). -/
def bufRead (buf : Nat → Nat) (off n : Nat) : List Nat :=
  (List.range n).map (fun j => buf (off + j))

/-- Try to send a message: fail with `-EAGAIN` when the box is full,
otherwise copy the message at the write cursor, advance (and wrap) the
cursor, bump the size, and wake one receiver when the box was empty. -/
def k_mailbox_try_send_locked (sigma : Sched) (mb : KMailBox) (msg : List Nat) :
    Int × KMailBox × Sched :=
  if mb.size = mb.capacity then (-EAGAIN, mb, sigma)
  else
    let buf1 := bufWrite mb.buf mb.write_off mb.msg_size msg
    let w0 := mb.write_off + mb.msg_size
    let w1 := if w0 ≥ mb.buf_len then 0 else w0
    if mb.size = 0 then
      let sr := sched_wakeup_one sigma mb.receivers 0
      (0, { mb with buf := buf1, write_off := w1, size := mb.size + 1,
                    receivers := sr.2 }, sr.1)
    else
      (0, { mb with buf := buf1, write_off := w1, size := mb.size + 1 }, sigma)

/-- Try to receive a message: fail with `-EAGAIN` when the box is empty,
otherwise copy the message at the read cursor, advance (and wrap) the
cursor, drop the size, and wake one sender when the box was full. -/
def k_mailbox_try_receive_locked (sigma : Sched) (mb : KMailBox) :
    Int × List Nat × KMailBox × Sched :=
  if mb.size = 0 then (-EAGAIN, [], mb, sigma)
  else
    let msg := bufRead mb.buf mb.read_off mb.msg_size
    let r0 := mb.read_off + mb.msg_size
    let r1 := if r0 ≥ mb.buf_len then 0 else r0
    if mb.size = mb.capacity then
      let sr := sched_wakeup_one sigma mb.senders 0
      (0, msg, { mb with read_off := r1, size := mb.size - 1,
                         senders := sr.2 }, sr.1)
    else
      (0, msg, { mb with read_off := r1, size := mb.size - 1 }, sigma)

/-! ## Spinlock model

Embedding of `spin_lock` / `spin_holding`.  A CPU is identified by a `Nat`.
The saved caller PCs are a list.  The outcome of `spin_lock` is: a panic
(carrying the PCs printed just before), a successful acquisition, or an
unbounded busy-wait when another CPU holds the lock (the single-actor model
has nobody to release it). -/

structure SpinLock where
  locked : Bool
  cpu : Option Nat
  pcs : List Nat
deriving DecidableEq, Repr

/-- Check whether the given CPU is holding the lock. -/
def spin_holding (me : Nat) (lk : SpinLock) : Bool :=
  lk.locked && lk.cpu == some me

/-- The caller PCs printed by `spin_print_caller_pcs`: the saved entries up
to the first zero. -/
def spin_print_caller_pcs (lk : SpinLock) : List Nat :=
  lk.pcs.takeWhile (fun p => p ≠ 0)

inductive SpinLockOutcome where
  | panicked (printed : List Nat)
  | acquired (lk : SpinLock)
  | busyWaits
deriving DecidableEq, Repr

/-- Acquire the spinlock: panic (after printing the saved caller PCs) when
the calling CPU already holds it; busy-wait while another CPU holds it;
otherwise take it and record the owner and the caller PCs. -/
def spin_lock (me : Nat) (callerPcs : List Nat) (lk : SpinLock) : SpinLockOutcome :=
  if spin_holding me lk then .panicked (spin_print_caller_pcs lk)
  else if lk.locked then .busyWaits
  else .acquired { locked := true, cpu := some me, pcs := callerPcs }

/-! ## Process creation model

Embedding of `process_create` and its steps.  The success or failure of the
external allocators (`kmem_alloc`/`page_alloc` inside `process_alloc`,
`vm_space_create` inside `process_setup_vm`) and the result of
`process_load_binary` are inputs of the model.  The embedding keeps the C
precedence of `if ((r = process_setup_vm(proc) < 0))`: the comparison binds
tighter than the assignment, so `r` receives the boolean value of the
comparison, not the return value of `process_setup_vm`. -/

/-- Result of `process_setup_vm`: `-ENOMEM` when `vm_space_create` returns
NULL, `0` otherwise. -/
def process_setup_vm (vmCreateOk : Bool) : Int :=
  if vmCreateOk then 0 else -ENOMEM

structure CreateEnv where
  allocOk : Bool
  vmCreateOk : Bool
  loadBinaryRes : Int
deriving DecidableEq, Repr

structure CreateResult where
  ret : Int
  vm_destroyed : Bool
  proc_freed : Bool
  task_resumed : Bool
deriving DecidableEq, Repr

/-- Embedding of `process_create`: allocate the process, set up the address
space, load the binary; unwind on failure.  The `fail2` path frees the
process; the `fail3` path destroys the VM and then frees the process.  Note
the value assigned to `r` at the `setup_vm` step is the result of the
comparison `process_setup_vm(proc) < 0` (0 or 1), exactly as in the C. -/
def process_create (e : CreateEnv) : CreateResult :=
  if ¬e.allocOk then
    { ret := -ENOMEM, vm_destroyed := false, proc_freed := false, task_resumed := false }
  else
    let r1 : Int := if process_setup_vm e.vmCreateOk < 0 then 1 else 0
    if r1 ≠ 0 then
      { ret := r1, vm_destroyed := false, proc_freed := true, task_resumed := false }
    else if e.loadBinaryRes < 0 then
      { ret := e.loadBinaryRes, vm_destroyed := true, proc_freed := true, task_resumed := false }
    else
      { ret := 0, vm_destroyed := false, proc_freed := false, task_resumed := true }

/-! ## PID allocation and fork model -/

/-- Wrap an integer to the value range of a 32-bit signed `pid_t`. -/
def wrap32 (n : Int) : Int :=
  (n + 2 ^ 31) % 2 ^ 32 - 2 ^ 31

/-- The pid assignment in `process_alloc`: `(thread->pid = ++next_pid) < 0`
panics on overflow, so the allocation either panics (`none`) or yields the
incremented counter. -/
def pid_alloc (next_pid : Int) : Option Int :=
  let np := wrap32 (next_pid + 1)
  if np < 0 then none else some np

/-- Modelled from the spec: the layout of `struct TrapFrame` (the
`armv7/regs.h` header is not part of the sources at hand).  The spec
specifies the user-mode register file with `r0` as the syscall return
register, the stack pointer, the program status word and the program
counter; the remaining general-purpose registers are carried as a tuple so
that "equal except r0" is meaningful for the whole frame. -/
structure TrapFrame where
  r0 : Nat
  r1 : Nat
  r2 : Nat
  r3 : Nat
  r4 : Nat
  r5 : Nat
  r6 : Nat
  r7 : Nat
  r8 : Nat
  r9 : Nat
  r10 : Nat
  r11 : Nat
  r12 : Nat
  sp : Nat
  lr : Nat
  pc : Nat
  psr : Nat
deriving DecidableEq, Repr

/-- Embedding of `process_copy` (fork): allocate a child (which draws a pid
from the counter), clone the address space, copy the parent's trap frame
into the child and zero the child's `r0`, then return the child's pid.  On
allocation failure return `-ENOMEM`.  The child's trap frame (when one was
produced) is returned alongside. -/
def process_copy (parentTf : TrapFrame) (childAlloc : Option Int) (cloneOk : Bool) :
    Int × Option TrapFrame :=
  match childAlloc with
  | none => (-ENOMEM, none)
  | some pid =>
    if ¬cloneOk then (-ENOMEM, none)
    else (pid, some { parentTf with r0 := 0 })

/-! ## Wait/exit model

Embedding of `process_wait` and the part of `process_destroy` that a
waiting parent observes.  The parent's children list is a list of process
records; a call to `process_wait` either returns (with the value returned,
the value stored through a non-null `stat_loc`, and the children list after
the call) or blocks on the caller's wait queue before retrying. -/

structure WProc where
  pid : Int
  zombie : Bool
  exit_code : Int
deriving DecidableEq, Repr

/-- The effect of `process_destroy(status)` on the exiting process's record
as seen by its parent: the zombie flag is set and the exit code stored
(lines 350-351; the rest of `process_destroy` tears down resources of the
exiting process and reparents its own children, leaving the parent's
children entries untouched). -/
def process_destroy_mark (status : Int) (p : WProc) : WProc :=
  { p with zombie := true, exit_code := status }

inductive ScanOut where
  | reaped (found : Int) (code : Int) (rest : List WProc)
  | done (found : Int)
deriving DecidableEq, Repr

/-- The `LIST_FOREACH` scan of `process_wait`: skip children whose pid does
not match a positive selector; stop the scan for the group selectors
(`pid == 0`, `pid < -1`, group comparison unimplemented); reap the first
matching zombie (returning its pid, exit code, and the children list with
it unlinked); otherwise record the match in `found` and continue. -/
def wait_scan (pid : Int) : List WProc → Int → ScanOut
  | [], found => .done found
  | p :: rest, found =>
    if pid > 0 ∧ p.pid ≠ pid then
      match wait_scan pid rest found with
      | .reaped f c rem => .reaped f c (p :: rem)
      | .done f => .done f
    else if pid = 0 then .done found
    else if pid < -1 then .done found
    else if p.zombie then .reaped p.pid p.exit_code rest
    else
      match wait_scan pid rest p.pid with
      | .reaped f c rem => .reaped f c (p :: rem)
      | .done f => .done f

inductive WaitRes where
  | ret (r : Int) (written : Option Int) (children : List WProc)
  | sleeps (children : List WProc)
deriving DecidableEq, Repr

/-- Wait option bits (newlib values of `WNOHANG` and `WUNTRACED`). -/
def WNOHANG : Nat := 1
def WUNTRACED : Nat := 2

/-- The 32-bit value of `~(WNOHANG | WUNTRACED)`. -/
def WAIT_OPTIONS_REJECT_MASK : Nat := 0xFFFFFFFC

/-- Embedding of one pass of `process_wait(pid, stat_loc, options)` with a
non-null `stat_loc`; `options` is the 32-bit pattern of the options word.
Options outside `WNOHANG | WUNTRACED` are rejected with `-EINVAL` before
anything else.  A matching zombie is reaped: its pid is returned and its
exit code stored through `stat_loc`.  With no match the result is
`-ECHILD`; with a live match and `WNOHANG` the result is `0`; otherwise the
caller sleeps on its wait queue and retries. -/
def process_wait (pid : Int) (options : Nat) (children : List WProc) : WaitRes :=
  if options &&& WAIT_OPTIONS_REJECT_MASK ≠ 0 then .ret (-EINVAL) none children
  else
    match wait_scan pid children 0 with
    | .reaped f c rest => .ret f (some c) rest
    | .done found =>
      if found = 0 then .ret (-ECHILD) none children
      else if options &&& WNOHANG ≠ 0 then .ret 0 none children
      else .sleeps children

/-! ## Supporting lemmas -/

lemma pid_alloc_pos (next_pid pid : Int) (h0 : 0 ≤ next_pid)
    (h1 : next_pid ≤ 2 ^ 31 - 1) (h : pid_alloc next_pid = some pid) :
    pid = next_pid + 1 ∧ 0 < pid := by
  simp only [pid_alloc, wrap32] at h
  by_cases hlt : next_pid + 1 < 2 ^ 31
  · rw [Int.emod_eq_of_lt (by omega) (by omega)] at h
    rw [if_neg (by omega)] at h
    simp only [Option.some.injEq] at h
    omega
  · have he : next_pid + 1 = 2 ^ 31 := by omega
    rw [he] at h
    norm_num at h
    simp at h

lemma sched_enqueue_sleep_result (sigma : Sched) (u t : TaskId) :
    ((sched_enqueue sigma u).tasks t).sleep_result = (sigma.tasks t).sleep_result := by
  by_cases ht : t = u <;> simp [sched_enqueue, updTask, ht]

lemma sched_may_yield_sleep_result (sigma : Sched) (c t : TaskId) :
    ((sched_may_yield sigma c).tasks t).sleep_result = (sigma.tasks t).sleep_result := by
  rcases hc : sigma.curTask with _ | my
  · simp [sched_may_yield, hc]
  · simp only [sched_may_yield, hc]
    split
    · split
      · by_cases ht : t = my <;> simp [updTask, ht]
      · show ((sched_enqueue sigma my).tasks t).sleep_result = _
        exact sched_enqueue_sleep_result sigma my t
    · rfl

lemma sched_wakeup_all_sleep_result (r : Int) (q : List TaskId) :
    ∀ (sigma : Sched) (t : TaskId),
    ((sched_wakeup_all sigma q r).tasks t).sleep_result =
      if t ∈ q then r else (sigma.tasks t).sleep_result := by
  induction q with
  | nil => intro sigma t; simp [sched_wakeup_all]
  | cons h rest ih =>
    intro sigma t
    rw [show sched_wakeup_all sigma (h :: rest) r =
          sched_wakeup_all
            (sched_may_yield
              (sched_enqueue (updTask sigma h (fun tk => { tk with sleep_result := r })) h) h)
            rest r from rfl]
    rw [ih]
    by_cases hm : t ∈ rest
    · simp [hm]
    · rw [sched_may_yield_sleep_result, sched_enqueue_sleep_result]
      by_cases ht : t = h <;> simp [updTask, ht, hm]

lemma wait_scan_skip (pid : Int) (m : List WProc) (hpid : 0 < pid) :
    ∀ (l : List WProc) (f : Int), (∀ p ∈ l, p.pid ≠ pid) →
    wait_scan pid (l ++ m) f =
      match wait_scan pid m f with
      | .reaped a b rem => .reaped a b (l ++ rem)
      | .done g => .done g := by
  intro l
  induction l with
  | nil =>
    intro f _
    simp only [List.nil_append]
    cases wait_scan pid m f <;> rfl
  | cons p rest ih =>
    intro f hl
    have hp : p.pid ≠ pid := hl p (by simp)
    have hrest : ∀ q ∈ rest, q.pid ≠ pid := fun q hq => hl q (by simp [hq])
    rw [List.cons_append]
    show wait_scan pid (p :: (rest ++ m)) f = _
    simp only [wait_scan]
    rw [if_pos ⟨hpid, hp⟩]
    rw [ih f hrest]
    cases wait_scan pid m f <;> simp

lemma wait_scan_zombie_head (pid : Int) (c : WProc) (l : List WProc) (f : Int)
    (hpid : 0 < pid) (hcpid : c.pid = pid) (hz : c.zombie = true) :
    wait_scan pid (c :: l) f = .reaped pid c.exit_code l := by
  simp only [wait_scan]
  rw [if_neg (by simp [hcpid]), if_neg (by omega), if_neg (by omega), if_pos hz, hcpid]

lemma wait_scan_alive (pid : Int) (hpid : 0 < pid) :
    ∀ (l : List WProc) (f : Int), (∀ p ∈ l, p.pid = pid → p.zombie = false) →
    wait_scan pid l f = .done (if l.any (fun p => p.pid == pid) then pid else f) := by
  intro l
  induction l with
  | nil => intro f _; simp [wait_scan]
  | cons p rest ih =>
    intro f hl
    have hrest : ∀ q ∈ rest, q.pid = pid → q.zombie = false :=
      fun q hq => hl q (by simp [hq])
    by_cases hp : p.pid = pid
    · have hz : p.zombie = false := hl p (by simp) hp
      simp only [wait_scan]
      rw [if_neg (by simp [hp]), if_neg (by omega), if_neg (by omega),
          if_neg (by simp [hz]), ih p.pid hrest]
      simp [hp]
    · simp only [wait_scan]
      rw [if_pos ⟨hpid, hp⟩, ih f hrest]
      have : (p.pid == pid) = false := by simp [hp]
      simp [this]

lemma updTask_tasks (sigma : Sched) (u : TaskId) (f : Task → Task) (t : TaskId) :
    (updTask sigma u f).tasks t = if t = u then f (sigma.tasks t) else sigma.tasks t := rfl

lemma updTask_runqueue (sigma : Sched) (u : TaskId) (f : Task → Task) :
    (updTask sigma u f).runqueue = sigma.runqueue := rfl

lemma sched_enqueue_tasks (sigma : Sched) (u t : TaskId) :
    (sched_enqueue sigma u).tasks t =
      if t = u then { sigma.tasks t with state := TaskState.ready } else sigma.tasks t := rfl

lemma sched_may_yield_state_ready (sigma : Sched) (c t : TaskId)
    (h : (sigma.tasks t).state = .ready) :
    ((sched_may_yield sigma c).tasks t).state = .ready := by
  rcases hc : sigma.curTask with _ | my
  · simpa [sched_may_yield, hc] using h
  · simp only [sched_may_yield, hc]
    split
    · split
      · rw [updTask_tasks]
        split <;> simp [h]
      · show ((sched_enqueue sigma my).tasks t).state = .ready
        rw [sched_enqueue_tasks]
        split <;> simp [h]
    · exact h

lemma sched_enqueue_runqueue_mono (sigma : Sched) (v u : TaskId) (p : Int)
    (h : u ∈ sigma.runqueue p) : u ∈ (sched_enqueue sigma v).runqueue p := by
  by_cases hp : p = (sigma.tasks v).priority
  · have e : (sched_enqueue sigma v).runqueue p = sigma.runqueue p ++ [v] := by
      simp [sched_enqueue, updTask_runqueue, updTask_tasks, hp]
    rw [e]
    exact List.mem_append_left _ h
  · have e : (sched_enqueue sigma v).runqueue p = sigma.runqueue p := by
      simp [sched_enqueue, updTask_runqueue, updTask_tasks, hp]
    rw [e]
    exact h

lemma sched_may_yield_runqueue_mem (sigma : Sched) (c : TaskId) (u : TaskId) (p : Int)
    (h : u ∈ sigma.runqueue p) :
    u ∈ (sched_may_yield sigma c).runqueue p := by
  rcases hc : sigma.curTask with _ | my
  · simpa [sched_may_yield, hc] using h
  · simp only [sched_may_yield, hc]
    split
    · split
      · exact h
      · exact sched_enqueue_runqueue_mono sigma my u p h
    · exact h

lemma sched_enqueue_self_mem (sigma : Sched) (t : TaskId) :
    t ∈ (sched_enqueue sigma t).runqueue ((sigma.tasks t).priority) := by
  simp [sched_enqueue, updTask_tasks]

lemma wakeup_scan_go (sigma : Sched) (l : List TaskId) :
    ∀ (j : Nat) (h : TaskId) (i : Nat),
    ∃ out : Nat × TaskId, wakeup_scan sigma l (some (j, h)) i = some out ∧
      ((out = (j, h) ∧ ∀ u ∈ l, (sigma.tasks h).priority ≤ (sigma.tasks u).priority) ∨
       (∃ k, k < l.length ∧ out = (i + k, l.getD k 0) ∧
         (sigma.tasks (l.getD k 0)).priority < (sigma.tasks h).priority ∧
         (∀ u ∈ l, (sigma.tasks (l.getD k 0)).priority ≤ (sigma.tasks u).priority) ∧
         (∀ m, m < k →
           (sigma.tasks (l.getD k 0)).priority < (sigma.tasks (l.getD m 0)).priority))) := by
  induction l with
  | nil =>
    intro j h i
    exact ⟨(j, h), rfl, Or.inl ⟨rfl, by simp⟩⟩
  | cons t rest ih =>
    intro j h i
    by_cases hcmp : task_priority_cmp (sigma.tasks t) (sigma.tasks h) > 0
    · have hstep : wakeup_scan sigma (t :: rest) (some (j, h)) i =
          wakeup_scan sigma rest (some (i, t)) (i + 1) := by
        simp only [wakeup_scan]
        rw [if_pos hcmp]
      have htp : (sigma.tasks t).priority < (sigma.tasks h).priority := by
        simp only [task_priority_cmp] at hcmp; omega
      obtain ⟨out, hout, hspec⟩ := ih i t (i + 1)
      refine ⟨out, hstep ▸ hout, Or.inr ?_⟩
      rcases hspec with ⟨hout_eq, hmin⟩ | ⟨k, hk, hout_eq, hlt, hmin, hearlier⟩
      · refine ⟨0, by simp, by simpa using hout_eq, by simpa using htp, ?_, by omega⟩
        intro u hu
        rcases List.mem_cons.mp hu with rfl | hu
        · simp
        · simpa using hmin u hu
      · refine ⟨k + 1, by simpa using hk, ?_, ?_, ?_, ?_⟩
        · rw [hout_eq]
          simp only [List.getD_cons_succ]
          congr 1
          omega
        · simpa using lt_trans hlt htp
        · intro u hu
          rcases List.mem_cons.mp hu with rfl | hu
          · simpa using le_of_lt hlt
          · simpa using hmin u hu
        · intro m hm
          cases m with
          | zero => simpa using hlt
          | succ m' => simpa using hearlier m' (by omega)
    · have hstep : wakeup_scan sigma (t :: rest) (some (j, h)) i =
          wakeup_scan sigma rest (some (j, h)) (i + 1) := by
        simp only [wakeup_scan]
        rw [if_neg hcmp]
      have htp : (sigma.tasks h).priority ≤ (sigma.tasks t).priority := by
        simp only [task_priority_cmp] at hcmp; omega
      obtain ⟨out, hout, hspec⟩ := ih j h (i + 1)
      refine ⟨out, hstep ▸ hout, ?_⟩
      rcases hspec with ⟨hout_eq, hmin⟩ | ⟨k, hk, hout_eq, hlt, hmin, hearlier⟩
      · refine Or.inl ⟨hout_eq, ?_⟩
        intro u hu
        rcases List.mem_cons.mp hu with rfl | hu
        · exact htp
        · exact hmin u hu
      · refine Or.inr ⟨k + 1, by simpa using hk, ?_, ?_, ?_, ?_⟩
        · rw [hout_eq]
          simp only [List.getD_cons_succ]
          congr 1
          omega
        · simpa using hlt
        · intro u hu
          rcases List.mem_cons.mp hu with rfl | hu
          · simpa using le_of_lt (lt_of_lt_of_le hlt htp)
          · simpa using hmin u hu
        · intro m hm
          cases m with
          | zero => simpa using lt_of_lt_of_le hlt htp
          | succ m' => simpa using hearlier m' (by omega)

lemma wakeup_scan_none_spec (sigma : Sched) (queue : List TaskId) (hne : queue ≠ []) :
    ∃ k, k < queue.length ∧
      wakeup_scan sigma queue none 0 = some (k, queue.getD k 0) ∧
      (∀ u ∈ queue, (sigma.tasks (queue.getD k 0)).priority ≤ (sigma.tasks u).priority) ∧
      (∀ m, m < k →
        (sigma.tasks (queue.getD k 0)).priority < (sigma.tasks (queue.getD m 0)).priority) := by
  cases queue with
  | nil => exact absurd rfl hne
  | cons t rest =>
    have hstep : wakeup_scan sigma (t :: rest) none 0 =
        wakeup_scan sigma rest (some (0, t)) 1 := by
      simp only [wakeup_scan]
    obtain ⟨out, hout, hspec⟩ := wakeup_scan_go sigma rest 0 t 1
    rcases hspec with ⟨hout_eq, hmin⟩ | ⟨k, hk, hout_eq, hlt, hmin, hearlier⟩
    · refine ⟨0, by simp, ?_, ?_, by omega⟩
      · rw [hstep, hout, hout_eq]
        simp
      · intro u hu
        rcases List.mem_cons.mp hu with rfl | hu
        · simp
        · simpa using hmin u hu
    · refine ⟨k + 1, by simpa using hk, ?_, ?_, ?_⟩
      · rw [hstep, hout, hout_eq]
        simp only [List.getD_cons_succ, Option.some.injEq, Prod.mk.injEq]
        exact ⟨by omega, trivial⟩
      · intro u hu
        rcases List.mem_cons.mp hu with rfl | hu
        · simpa using le_of_lt hlt
        · simpa using hmin u hu
      · intro m hm
        cases m with
        | zero => simpa using hlt
        | succ m' => simpa using hearlier m' (by omega)

lemma map_getD_range (msg : List Nat) :
    (List.range msg.length).map (fun j => msg.getD j 0) = msg := by
  induction msg with
  | nil => simp
  | cons a tl ih =>
    rw [List.length_cons, List.range_succ_eq_map, List.map_cons, List.map_map]
    simp only [Function.comp_def, List.getD_cons_zero, List.getD_cons_succ]
    rw [ih]

lemma bufRead_bufWrite (buf : Nat → Nat) (off : Nat) (msg : List Nat) (n : Nat)
    (hlen : msg.length = n) :
    bufRead (bufWrite buf off n msg) off n = msg := by
  subst hlen
  simp only [bufRead, bufWrite]
  have hcongr : ∀ j ∈ List.range msg.length,
      (if off ≤ off + j ∧ off + j < off + msg.length then msg.getD (off + j - off) 0
       else buf (off + j)) = msg.getD j 0 := by
    intro j hj
    have hj' : j < msg.length := List.mem_range.mp hj
    rw [if_pos ⟨Nat.le_add_right _ _, by omega⟩]
    congr 1
    omega
  rw [List.map_congr_left hcongr]
  exact map_getD_range msg

lemma aligned_fit (m a cap w bl : Nat) (hw : w = m * a) (hbl : bl = cap * m)
    (hlt : w < bl) : w + m ≤ bl := by
  subst hw hbl
  have h3 : m * a = a * m := Nat.mul_comm m a
  have hac : a < cap := by
    by_contra hge
    push_neg at hge
    have h2 : cap * m ≤ a * m := Nat.mul_le_mul_right m hge
    omega
  have h5 : (a + 1) * m ≤ cap * m := Nat.mul_le_mul_right m (by omega)
  have h6 : (a + 1) * m = a * m + m := by ring
  omega

/-! ## Claim theorems -/

/-- C1: the claim states that `process_create` propagates the negative
error of a failing `process_setup_vm` to its caller.  The code does not: in
`if ((r = process_setup_vm(proc) < 0))` the comparison binds tighter than
the assignment, so when `vm_space_create` fails (and `process_setup_vm`
returns `-ENOMEM`) the function returns `1`, a positive value, not
`-ENOMEM`. The process is still freed on that path, and the two other legs
of the claim (alloc failure and `process_load_binary` failure) behave as
claimed; this theorem evaluates the code at the failing input. -/
theorem process_create_setup_vm_precedence_bug :
    process_create { allocOk := true, vmCreateOk := false, loadBinaryRes := 0 } =
      { ret := 1, vm_destroyed := false, proc_freed := true, task_resumed := false } ∧
    (process_create { allocOk := true, vmCreateOk := false, loadBinaryRes := 0 }).ret ≠
      -ENOMEM ∧
    process_create { allocOk := false, vmCreateOk := true, loadBinaryRes := 0 } =
      { ret := -ENOMEM, vm_destroyed := false, proc_freed := false, task_resumed := false } ∧
    process_create { allocOk := true, vmCreateOk := true, loadBinaryRes := -EINVAL } =
      { ret := -EINVAL, vm_destroyed := true, proc_freed := true, task_resumed := false } := by
  decide

/-- C10: for every pid and options word with any bit set outside
`WNOHANG | WUNTRACED`, `process_wait` returns `-EINVAL` immediately: no
child is reaped, nothing is stored through the status pointer, and the
children list is unchanged. -/
theorem process_wait_bad_options (pid : Int) (options : Nat) (children : List WProc)
    (h : options &&& WAIT_OPTIONS_REJECT_MASK ≠ 0) :
    process_wait pid options children = .ret (-EINVAL) none children := by
  simp [process_wait, h]

theorem process_wait_bad_options_witness :
    process_wait 1 4 [{ pid := 1, zombie := true, exit_code := 7 }] =
      .ret (-EINVAL) none [{ pid := 1, zombie := true, exit_code := 7 }] :=
  process_wait_bad_options 1 4 [{ pid := 1, zombie := true, exit_code := 7 }] (by decide)

/-- C9: if the calling CPU already holds a spinlock, `spin_lock` panics
after printing the saved caller PCs (it neither acquires recursively nor
busy-waits); a CPU that does not hold the lock never reaches the panic
branch. -/
theorem spin_lock_recursive_panics (me : Nat) (callerPcs : List Nat) (lk : SpinLock) :
    (spin_holding me lk = true →
      spin_lock me callerPcs lk = .panicked (spin_print_caller_pcs lk)) ∧
    (spin_holding me lk = false →
      ∀ printed, spin_lock me callerPcs lk ≠ .panicked printed) := by
  constructor
  · intro h
    simp [spin_lock, h]
  · intro h printed
    have hred : spin_lock me callerPcs lk =
        (if lk.locked then .busyWaits
         else .acquired { locked := true, cpu := some me, pcs := callerPcs }) := by
      simp [spin_lock, h]
    rw [hred]
    split <;> simp

theorem spin_lock_recursive_panics_witness :
    spin_lock 0 [9] { locked := true, cpu := some 0, pcs := [7, 3, 0, 5] } =
      .panicked (spin_print_caller_pcs { locked := true, cpu := some 0, pcs := [7, 3, 0, 5] }) :=
  (spin_lock_recursive_panics 0 [9] { locked := true, cpu := some 0, pcs := [7, 3, 0, 5] }).1
    (by decide)

/-- C3: after a successful `process_copy`, the child's trap frame equals
the parent's except for the syscall return register `r0`, which is zero,
and the returned value is the child's pid, a positive number (the pid
counter starts at zero, is pre-incremented at every allocation, and the
kernel panics before ever handing out a wrapped negative pid). -/
theorem process_copy_child_frame (parentTf : TrapFrame) (next_pid pid : Int)
    (h0 : 0 ≤ next_pid) (h1 : next_pid ≤ 2 ^ 31 - 1)
    (halloc : pid_alloc next_pid = some pid) :
    process_copy parentTf (pid_alloc next_pid) true = (pid, some { parentTf with r0 := 0 }) ∧
    0 < pid := by
  obtain ⟨-, hpos⟩ := pid_alloc_pos next_pid pid h0 h1 halloc
  refine ⟨?_, hpos⟩
  rw [halloc]
  simp [process_copy]

def trapFrameEx : TrapFrame :=
  { r0 := 41, r1 := 1, r2 := 2, r3 := 3, r4 := 4, r5 := 5, r6 := 6, r7 := 7, r8 := 8,
    r9 := 9, r10 := 10, r11 := 11, r12 := 12, sp := 13, lr := 14, pc := 15, psr := 16 }

theorem process_copy_child_frame_witness :
    process_copy trapFrameEx (pid_alloc 0) true = (1, some { trapFrameEx with r0 := 0 }) ∧
    (0 : Int) < 1 :=
  process_copy_child_frame trapFrameEx 0 1 (by decide) (by decide) (by decide)

/-- C5 counterexample: the claim says that whenever the running task's
priority is not strictly lower than the candidate's (or the CPU is nested
in an ISR), `sched_may_yield` sets the reschedule-pending flag on the
running task.  With equal priorities and no ISR nesting the code takes
neither branch: the flag stays clear and no yield happens. -/
def sigmaC5 : Sched :=
  { tasks := fun _ => { priority := 1, state := .running, resched := false, sleep_result := 0 },
    runqueue := fun _ => [],
    curTask := some 0,
    isrNesting := 0,
    yields := 0 }

theorem sched_may_yield_claim_counterexample :
    sigmaC5.curTask = some 0 ∧
    ¬ ((sigmaC5.tasks 0).priority > (sigmaC5.tasks 1).priority ∧ sigmaC5.isrNesting = 0) ∧
    ((sched_may_yield sigmaC5 1).tasks 0).resched = false ∧
    (sched_may_yield sigmaC5 1).yields = 0 := by
  refine ⟨rfl, by decide, rfl, rfl⟩

/-- C5 (amended): with the scheduler lock held and a task running on the
current CPU, `sched_may_yield(candidate)` enqueues the running task and
yields when the running task's priority is strictly lower (greater value)
than the candidate's and the CPU is not nested in an ISR; it sets the
reschedule-pending flag when the priority is strictly lower but the CPU is
nested in an ISR; and it changes nothing when the running task's priority
is not strictly lower than the candidate's. -/
theorem sched_may_yield_spec (sigma : Sched) (my cand : TaskId)
    (hcur : sigma.curTask = some my) :
    ((sigma.tasks my).priority > (sigma.tasks cand).priority ∧ sigma.isrNesting ≤ 0 →
      sched_may_yield sigma cand = sched_yield (sched_enqueue sigma my)) ∧
    ((sigma.tasks my).priority > (sigma.tasks cand).priority ∧ 0 < sigma.isrNesting →
      sched_may_yield sigma cand = updTask sigma my (fun tk => { tk with resched := true })) ∧
    (¬ (sigma.tasks my).priority > (sigma.tasks cand).priority →
      sched_may_yield sigma cand = sigma) := by
  refine ⟨?_, ?_, ?_⟩
  · rintro ⟨hp, hn⟩
    simp only [sched_may_yield, hcur, task_priority_cmp]
    rw [if_pos (by omega), if_neg (by omega)]
  · rintro ⟨hp, hn⟩
    simp only [sched_may_yield, hcur, task_priority_cmp]
    rw [if_pos (by omega), if_pos (by omega)]
  · intro hp
    simp only [sched_may_yield, hcur, task_priority_cmp]
    rw [if_neg (by omega)]

/-- C4: a task that goes to sleep on a wait queue through `sched_sleep`
(releasing the caller's lock only after the scheduler lock is taken) and is
later resumed by a `sched_wakeup_all` on that queue with result `r`
returns `r` from `sched_sleep`, with the caller's lock reacquired before
the return. -/
theorem sched_sleep_wakeup_all_round_trip (s : SleepSession) (t : TaskId) (r : Int)
    (hlock : s.callerLock = true) :
    (sched_sleep_after_yield (wakeup_all_session (sched_sleep_before_yield s t) r) t).1 = r ∧
    (sched_sleep_after_yield
        (wakeup_all_session (sched_sleep_before_yield s t) r) t).2.callerLock = true := by
  refine ⟨?_, rfl⟩
  show (((wakeup_all_session (sched_sleep_before_yield s t) r).sched).tasks t).sleep_result = r
  show ((sched_wakeup_all (sched_sleep_before_yield s t).sched
          (sched_sleep_before_yield s t).queue r).tasks t).sleep_result = r
  rw [sched_wakeup_all_sleep_result]
  simp [sched_sleep_before_yield]

def sessionEx : SleepSession :=
  { sched := sigmaC5, queue := [], callerLock := true }

theorem sched_sleep_wakeup_all_round_trip_witness :
    (sched_sleep_after_yield (wakeup_all_session (sched_sleep_before_yield sessionEx 3) 42) 3).1
      = 42 ∧
    (sched_sleep_after_yield
        (wakeup_all_session (sched_sleep_before_yield sessionEx 3) 42) 3).2.callerLock = true :=
  sched_sleep_wakeup_all_round_trip sessionEx 3 42 rfl

/-- C2: when a child exits via `process_destroy(s)` and its parent calls
`process_wait` with the child's pid, a status pointer, and options `0`, the
call returns the child's pid and stores `s` through the status pointer
exactly once, unlinking the child; a second `process_wait` on the same pid
returns `-ECHILD`. -/
theorem process_wait_reaps_exactly_once (l1 l2 : List WProc) (c : WProc) (s pid : Int)
    (hpid : 0 < pid) (hc : c.pid = pid)
    (hother : ∀ p ∈ l1 ++ l2, p.pid ≠ pid) :
    process_wait pid 0 (l1 ++ process_destroy_mark s c :: l2) =
      .ret pid (some s) (l1 ++ l2) ∧
    process_wait pid 0 (l1 ++ l2) = .ret (-ECHILD) none (l1 ++ l2) := by
  have h1 : ∀ p ∈ l1, p.pid ≠ pid := fun p hp => hother p (List.mem_append_left _ hp)
  constructor
  · have hscan : wait_scan pid (l1 ++ process_destroy_mark s c :: l2) 0 =
        .reaped pid s (l1 ++ l2) := by
      rw [wait_scan_skip pid (process_destroy_mark s c :: l2) hpid l1 0 h1]
      rw [wait_scan_zombie_head pid (process_destroy_mark s c) l2 0 hpid
            (by simpa [process_destroy_mark] using hc) (by simp [process_destroy_mark])]
      simp [process_destroy_mark]
    simp [process_wait, hscan]
  · have hscan : wait_scan pid (l1 ++ l2) 0 = .done 0 := by
      have := wait_scan_skip pid [] hpid (l1 ++ l2) 0 hother
      rw [List.append_nil] at this
      simpa [wait_scan] using this
    simp [process_wait, hscan]

theorem process_wait_reaps_exactly_once_witness :
    process_wait 7 0
        ([{ pid := 5, zombie := false, exit_code := 0 }] ++
          process_destroy_mark 3 { pid := 7, zombie := false, exit_code := 0 } ::
          [{ pid := 9, zombie := true, exit_code := 1 }]) =
      .ret 7 (some 3)
        ([{ pid := 5, zombie := false, exit_code := 0 }] ++
          [{ pid := 9, zombie := true, exit_code := 1 }]) ∧
    process_wait 7 0
        ([{ pid := 5, zombie := false, exit_code := 0 }] ++
          [{ pid := 9, zombie := true, exit_code := 1 }]) =
      .ret (-ECHILD) none
        ([{ pid := 5, zombie := false, exit_code := 0 }] ++
          [{ pid := 9, zombie := true, exit_code := 1 }]) :=
  process_wait_reaps_exactly_once
    [{ pid := 5, zombie := false, exit_code := 0 }]
    [{ pid := 9, zombie := true, exit_code := 1 }]
    { pid := 7, zombie := false, exit_code := 0 } 3 7
    (by decide) (by decide) (by decide)

/-- C8: a parent calling `process_wait(child_pid, stat_loc, WNOHANG)` while
a child with that pid exists in its children list and no child with that
pid is a zombie gets `0` back, nothing is stored through the status
pointer, and the children list is unchanged. -/
theorem process_wait_wnohang_alive (l : List WProc) (pid : Int)
    (hpid : 0 < pid)
    (hex : ∃ c ∈ l, c.pid = pid)
    (halive : ∀ c ∈ l, c.pid = pid → c.zombie = false) :
    process_wait pid WNOHANG l = .ret 0 none l := by
  have hany : l.any (fun p => p.pid == pid) = true := by
    rcases hex with ⟨c, hcl, hcp⟩
    exact List.any_eq_true.mpr ⟨c, hcl, by simp [hcp]⟩
  have hscan : wait_scan pid l 0 = .done pid := by
    rw [wait_scan_alive pid hpid l 0 halive, hany]
    simp
  simp only [process_wait, hscan]
  rw [if_neg (by decide), if_neg (by omega), if_pos (by decide)]

theorem process_wait_wnohang_alive_witness :
    process_wait 7 WNOHANG
        [{ pid := 5, zombie := true, exit_code := 2 },
         { pid := 7, zombie := false, exit_code := 0 }] =
      .ret 0 none
        [{ pid := 5, zombie := true, exit_code := 2 },
         { pid := 7, zombie := false, exit_code := 0 }] :=
  process_wait_wnohang_alive
    [{ pid := 5, zombie := true, exit_code := 2 },
     { pid := 7, zombie := false, exit_code := 0 }] 7
    (by decide)
    ⟨{ pid := 7, zombie := false, exit_code := 0 }, by decide, by decide⟩
    (by decide)

lemma sched_wakeup_one_eq (sigma : Sched) (queue : List TaskId) (r : Int) (k : Nat)
    (t : TaskId) (hscan : wakeup_scan sigma queue none 0 = some (k, t)) :
    sched_wakeup_one sigma queue r =
      (sched_may_yield
        (sched_enqueue (updTask sigma t (fun tk => { tk with sleep_result := r })) t) t,
       queue.eraseIdx k) := by
  simp only [sched_wakeup_one, hscan]

/-- C6: on a non-empty wait queue, `sched_wakeup_one` removes exactly the
sleeper with the highest priority (smallest priority value), breaking ties
in favor of the sleeper earliest in the queue, records the given result in
its sleep-result slot, and enqueues it (ready) on the run queue of its
priority; on an empty queue it wakes nothing. -/
theorem sched_wakeup_one_highest_fifo (sigma : Sched) (queue : List TaskId) (r : Int) :
    (queue = [] → sched_wakeup_one sigma queue r = (sigma, [])) ∧
    (queue ≠ [] → ∃ k, k < queue.length ∧
      (∀ u ∈ queue,
        (sigma.tasks (queue.getD k 0)).priority ≤ (sigma.tasks u).priority) ∧
      (∀ m, m < k →
        (sigma.tasks (queue.getD k 0)).priority < (sigma.tasks (queue.getD m 0)).priority) ∧
      (sched_wakeup_one sigma queue r).2 = queue.eraseIdx k ∧
      ((sched_wakeup_one sigma queue r).1.tasks (queue.getD k 0)).sleep_result = r ∧
      ((sched_wakeup_one sigma queue r).1.tasks (queue.getD k 0)).state = .ready ∧
      queue.getD k 0 ∈
        (sched_wakeup_one sigma queue r).1.runqueue
          ((sigma.tasks (queue.getD k 0)).priority)) := by
  constructor
  · rintro rfl
    rfl
  · intro hne
    obtain ⟨k, hk, hscan, hmin, hfifo⟩ := wakeup_scan_none_spec sigma queue hne
    have e := sched_wakeup_one_eq sigma queue r k (queue.getD k 0) hscan
    have hp : ((updTask sigma (queue.getD k 0)
          (fun tk => { tk with sleep_result := r })).tasks (queue.getD k 0)).priority =
        (sigma.tasks (queue.getD k 0)).priority := by
      rw [updTask_tasks]
      simp
    refine ⟨k, hk, hmin, hfifo, ?_, ?_, ?_, ?_⟩
    · rw [e]
    · rw [e]
      dsimp only
      rw [sched_may_yield_sleep_result, sched_enqueue_sleep_result, updTask_tasks]
      simp
    · rw [e]
      dsimp only
      apply sched_may_yield_state_ready
      rw [sched_enqueue_tasks]
      simp
    · rw [e]
      dsimp only
      apply sched_may_yield_runqueue_mem
      exact hp ▸ sched_enqueue_self_mem
        (updTask sigma (queue.getD k 0) (fun tk => { tk with sleep_result := r }))
        (queue.getD k 0)

def sigmaC6w : Sched :=
  { tasks := fun i =>
      if i = 4 then { priority := 2, state := .sleeping, resched := false, sleep_result := 0 }
      else if i = 5 then { priority := 1, state := .sleeping, resched := false, sleep_result := 0 }
      else if i = 6 then { priority := 1, state := .sleeping, resched := false, sleep_result := 0 }
      else { priority := 3, state := .running, resched := false, sleep_result := 0 },
    runqueue := fun _ => [],
    curTask := none,
    isrNesting := 0,
    yields := 0 }

theorem sched_wakeup_one_highest_fifo_witness :
    ∃ k, k < [4, 5, 6].length ∧
      (∀ u ∈ [4, 5, 6],
        (sigmaC6w.tasks ([4, 5, 6].getD k 0)).priority ≤ (sigmaC6w.tasks u).priority) ∧
      (∀ m, m < k →
        (sigmaC6w.tasks ([4, 5, 6].getD k 0)).priority <
          (sigmaC6w.tasks ([4, 5, 6].getD m 0)).priority) ∧
      (sched_wakeup_one sigmaC6w [4, 5, 6] 9).2 = [4, 5, 6].eraseIdx k ∧
      ((sched_wakeup_one sigmaC6w [4, 5, 6] 9).1.tasks ([4, 5, 6].getD k 0)).sleep_result = 9 ∧
      ((sched_wakeup_one sigmaC6w [4, 5, 6] 9).1.tasks ([4, 5, 6].getD k 0)).state = .ready ∧
      [4, 5, 6].getD k 0 ∈
        (sched_wakeup_one sigmaC6w [4, 5, 6] 9).1.runqueue
          ((sigmaC6w.tasks ([4, 5, 6].getD k 0)).priority) :=
  (sched_wakeup_one_highest_fifo sigmaC6w [4, 5, 6] 9).2 (by decide)

lemma k_mailbox_try_receive_locked_full (sigma : Sched) (mb : KMailBox)
    (h0 : ¬ mb.size = 0) (hfull : mb.size = mb.capacity) :
    k_mailbox_try_receive_locked sigma mb =
      (0, bufRead mb.buf mb.read_off mb.msg_size,
       { mb with read_off := if mb.read_off + mb.msg_size ≥ mb.buf_len then 0
                             else mb.read_off + mb.msg_size,
                 size := mb.size - 1,
                 senders := (sched_wakeup_one sigma mb.senders 0).2 },
       (sched_wakeup_one sigma mb.senders 0).1) := by
  simp only [k_mailbox_try_receive_locked]
  rw [if_neg h0, if_pos hfull]

lemma k_mailbox_try_receive_locked_notfull (sigma : Sched) (mb : KMailBox)
    (h0 : ¬ mb.size = 0) (hfull : ¬ mb.size = mb.capacity) :
    k_mailbox_try_receive_locked sigma mb =
      (0, bufRead mb.buf mb.read_off mb.msg_size,
       { mb with read_off := if mb.read_off + mb.msg_size ≥ mb.buf_len then 0
                             else mb.read_off + mb.msg_size,
                 size := mb.size - 1 }, sigma) := by
  simp only [k_mailbox_try_receive_locked]
  rw [if_neg h0, if_neg hfull]

/-- C7: on a well-formed mailbox of size 0 (read and write cursors
coincident, the write cursor message-aligned below the end of the ring, a
positive capacity — the invariants established by `k_mailbox_init_common`
and preserved by the cursor wrap-around, which also keep the C `memmove`
inside the ring), a successful `try_send` of a message followed by a
`try_receive` yields the same `msg_size` bytes byte-for-byte, and the
mailbox size is 0 again afterwards. -/
theorem k_mailbox_send_then_receive (sigma : Sched) (mb : KMailBox) (msg : List Nat)
    (hsize : mb.size = 0) (hrw : mb.read_off = mb.write_off)
    (hcap : 0 < mb.capacity) (hlen : msg.length = mb.msg_size)
    (hdvd : mb.msg_size ∣ mb.write_off)
    (hbuf : mb.buf_len = mb.capacity * mb.msg_size)
    (hlt : mb.write_off < mb.buf_len) :
    ∃ mb1 sigma1 mb2 sigma2,
      k_mailbox_try_send_locked sigma mb msg = (0, mb1, sigma1) ∧
      k_mailbox_try_receive_locked sigma1 mb1 = (0, msg, mb2, sigma2) ∧
      mb2.size = 0 := by
  obtain ⟨a, ha⟩ := hdvd
  have _hfit : mb.write_off + mb.msg_size ≤ mb.buf_len :=
    aligned_fit mb.msg_size a mb.capacity mb.write_off mb.buf_len ha hbuf hlt
  have hne : ¬ mb.size = mb.capacity := by omega
  have hsend : k_mailbox_try_send_locked sigma mb msg =
      (0, { mb with buf := bufWrite mb.buf mb.write_off mb.msg_size msg,
                    write_off := if mb.write_off + mb.msg_size ≥ mb.buf_len then 0
                                 else mb.write_off + mb.msg_size,
                    size := mb.size + 1,
                    receivers := (sched_wakeup_one sigma mb.receivers 0).2 },
       (sched_wakeup_one sigma mb.receivers 0).1) := by
    simp only [k_mailbox_try_send_locked]
    rw [if_neg hne, if_pos hsize]
  obtain ⟨mb1, sigma1, hsend1, hs1, hr1, hm1, hc1, hb1⟩ :
      (∃ mb1 sigma1,
        k_mailbox_try_send_locked sigma mb msg = (0, mb1, sigma1) ∧
        mb1.size = mb.size + 1 ∧ mb1.read_off = mb.read_off ∧
        mb1.msg_size = mb.msg_size ∧ mb1.capacity = mb.capacity ∧
        mb1.buf = bufWrite mb.buf mb.write_off mb.msg_size msg) :=
    ⟨_, _, hsend, rfl, rfl, rfl, rfl, rfl⟩
  have h0 : ¬ mb1.size = 0 := by omega
  have hread : bufRead mb1.buf mb1.read_off mb1.msg_size = msg := by
    rw [hb1, hr1, hm1, hrw]
    exact bufRead_bufWrite mb.buf mb.write_off msg mb.msg_size hlen
  by_cases hfull : mb1.size = mb1.capacity
  · have hrecv := k_mailbox_try_receive_locked_full sigma1 mb1 h0 hfull
    refine ⟨mb1, sigma1,
      { mb1 with read_off := if mb1.read_off + mb1.msg_size ≥ mb1.buf_len then 0
                             else mb1.read_off + mb1.msg_size,
                 size := mb1.size - 1,
                 senders := (sched_wakeup_one sigma1 mb1.senders 0).2 },
      (sched_wakeup_one sigma1 mb1.senders 0).1, hsend1, ?_, ?_⟩
    · rw [hrecv, hread]
    · exact (show mb1.size - 1 = 0 by omega)
  · have hrecv := k_mailbox_try_receive_locked_notfull sigma1 mb1 h0 hfull
    refine ⟨mb1, sigma1,
      { mb1 with read_off := if mb1.read_off + mb1.msg_size ≥ mb1.buf_len then 0
                             else mb1.read_off + mb1.msg_size,
                 size := mb1.size - 1 },
      sigma1, hsend1, ?_, ?_⟩
    · rw [hrecv, hread]
    · exact (show mb1.size - 1 = 0 by omega)

def mailboxEx : KMailBox :=
  { buf := fun _ => 0, buf_len := 4, read_off := 0, write_off := 0,
    msg_size := 2, capacity := 2, size := 0, receivers := [], senders := [] }

theorem k_mailbox_send_then_receive_witness :
    ∃ mb1 sigma1 mb2 sigma2,
      k_mailbox_try_send_locked sigmaC5 mailboxEx [10, 20] = (0, mb1, sigma1) ∧
      k_mailbox_try_receive_locked sigma1 mb1 = (0, [10, 20], mb2, sigma2) ∧
      mb2.size = 0 :=
  k_mailbox_send_then_receive sigmaC5 mailboxEx [10, 20]
    rfl rfl (by decide) rfl (by decide) rfl (by decide)

def sigmaC5w : Sched :=
  { tasks := fun i => if i = 0 then { priority := 5, state := .running, resched := false, sleep_result := 0 }
             else { priority := 2, state := .ready, resched := false, sleep_result := 0 },
    runqueue := fun _ => [],
    curTask := some 0,
    isrNesting := 0,
    yields := 0 }

theorem sched_may_yield_spec_witness :
    sched_may_yield sigmaC5w 1 = sched_yield (sched_enqueue sigmaC5w 0) :=
  (sched_may_yield_spec sigmaC5w 0 1 rfl).1 (by decide)

end Osdev
